import Mathlib

/-!
Shallow embedding of the pagination-and-join engine of the qf3 dashboard:
the page-fetch loops of `qf3_api.py` (`QF3Client.fetch_all_heads`,
`QF3Client.build_job_equipment_map`) and `qfactory_client.py`
(`QFactoryClient.list_items_all`), the enrichment and filtering helpers
(`QF3Client.attach_equipment_to_heads`, `app._parse_and_tokens`,
`app._filter_heads_by_item_name`), the spreadsheet shaping
(`app._excel_one_sheet_item_then_results`), and the export handler's
empty-result validation (`app.py`, excel download button).

JSON scalars that these functions inspect are modelled by `Val`; a Python
dict is an association list with at most one entry per key (`dset` updates
in place like a dict assignment does).  The HTTP transport is abstracted as
a function from a 1-based page number to the page's response.  Each fetch
loop is instrumented with the number of page requests it issues, which the
Python code performs but does not return; the returned value is unchanged.
-/

namespace QF3

/-- A JSON scalar as the app's row dictionaries hold one: Python `None`, a
string, or an integer. -/
inductive Val where
  | null
  | str (s : String)
  | int (n : Int)
deriving DecidableEq

/-- Python truthiness of a `Val`: `None`, `""` and `0` are falsy. -/
def truthy : Val → Bool
  | .null => false
  | .str s => !s.isEmpty
  | .int n => n != 0

/-- Python `int(v)` on the values this code converts: an int is itself and a
decimal string is parsed.  (`int` of a non-numeric string or of `None`
raises in Python; those calls are never reached on the inputs modelled
here, and default to 0.) -/
def toIntPy : Val → Int
  | .null => 0
  | .str s => (s.toInt?).getD 0
  | .int n => n

/-- A Python dict with string keys, as an association list. -/
abbrev Record := List (String × Val)

/-- Python `d.get(k)`: the value at the first entry for `k`, if any. -/
def dget : Record → String → Option Val
  | [], _ => none
  | (k, v) :: r, key => if k = key then some v else dget r key

/-- Python `d.get(k)` where a missing key yields `None`. -/
def dgetN (r : Record) (key : String) : Val :=
  (dget r key).getD Val.null

/-- Python `d[k] = v`: replace the entry for `k` in place, else append. -/
def dset : Record → String → Val → Record
  | [], key, v => [(key, v)]
  | (k, w) :: r, key, v =>
      if k = key then (key, v) :: r else (k, w) :: dset r key v

/-- A Python dict keyed by join-key values (the `jobName` values), as built
by `build_job_equipment_map`. -/
abbrev EquipMap := List (Val × Record)

/-- Lookup in an `EquipMap` (Python `mp.get(jn)`). -/
def mget : EquipMap → Val → Option Record
  | [], _ => none
  | (k, v) :: m, key => if k = key then some v else mget m key

/-- Python `mp[jn] = info`: replace in place, else append. -/
def mset : EquipMap → Val → Record → EquipMap
  | [], key, v => [(key, v)]
  | (k, w) :: m, key, v =>
      if k = key then (key, v) :: m else (k, w) :: mset m key v

/-- The slice of a qf3 JSON response that `_extract_list` and
`_extract_total` read: the value at the path `data.list`.  `none` stands
for a response where the path is missing or holds `None`;
`(resp or \x7b\x7d).get("data", ...).get("list", []) or []` makes every
such case the empty row list. -/
structure Resp where
  dataList : Option (List Record)

/-- `QF3Client._extract_list` (qf3_api.py lines 148-150). -/
def extract_list (resp : Resp) : List Record :=
  resp.dataList.getD []

/-- `QF3Client._extract_total` (qf3_api.py lines 152-157):
`int(lst[0].get("cnt", len(lst)) or len(lst))` with 0 for an empty list. -/
def extract_total (resp : Resp) : Int :=
  let lst := extract_list resp
  match lst with
  | [] => 0
  | first :: _ =>
      let c := (dget first "cnt").getD (Val.int lst.length)
      toIntPy (if truthy c then c else Val.int lst.length)

/-- The `while page <= max_pages` loop of `QF3Client.fetch_all_heads`
(qf3_api.py lines 209-234).  `pagesLeft` is `max_pages + 1 - page`, which
makes the loop's termination structural; `reqs` counts the page requests
issued (calls of `head_list`).  The `limit` argument of the Python function
is only forwarded to the backend and plays no role in the loop, so it is
part of the abstracted backend here. -/
def fetchAllHeadsGo (backend : Nat → Resp) :
    Nat → Nat → List Record → Nat → List Record × Nat
  | 0, _, allRows, reqs => (allRows, reqs)
  | pagesLeft + 1, page, allRows, reqs =>
      let resp := backend page
      let rows := extract_list resp
      if rows.isEmpty then (allRows, reqs + 1)
      else
        let allRows2 := allRows ++ rows
        let total := extract_total resp
        if (allRows2.length : Int) ≥ total then (allRows2, reqs + 1)
        else fetchAllHeadsGo backend pagesLeft (page + 1) allRows2 (reqs + 1)

/-- `QF3Client.fetch_all_heads` (qf3_api.py lines 196-234), returning the
accumulated rows together with the number of page requests issued. -/
def fetch_all_heads (backend : Nat → Resp) (maxPages : Nat) :
    List Record × Nat :=
  fetchAllHeadsGo backend maxPages 1 [] 0

/-- The metadata subset `build_job_equipment_map` stores per join key
(qf3_api.py lines 184-188). -/
def jobRowInfo (r : Record) : Record :=
  [("workcenterName", dgetN r "workcenterName"),
   ("machineName", dgetN r "machineName"),
   ("resourceName", dgetN r "resourceName")]

/-- The `for r in rows` body of `build_job_equipment_map` (qf3_api.py lines
180-188): skip rows whose `jobName` is missing or falsy, else overwrite the
map entry for that key. -/
def insertJobRows (mp : EquipMap) : List Record → EquipMap
  | [] => mp
  | r :: rest =>
      let mp2 :=
        match dget r "jobName" with
        | some jn => if truthy jn then mset mp jn (jobRowInfo r) else mp
        | none => mp
      insertJobRows mp2 rest

/-- The `while page <= max_pages` loop of
`QF3Client.build_job_equipment_map` (qf3_api.py lines 166-194), with the
same instrumentation as `fetchAllHeadsGo`.  Note the stop test compares
`len(mp)` — the number of map entries — with the declared total. -/
def buildJobEquipmentMapGo (backend : Nat → Resp) :
    Nat → Nat → EquipMap → Nat → EquipMap × Nat
  | 0, _, mp, reqs => (mp, reqs)
  | pagesLeft + 1, page, mp, reqs =>
      let resp := backend page
      let rows := extract_list resp
      if rows.isEmpty then (mp, reqs + 1)
      else
        let mp2 := insertJobRows mp rows
        let total := extract_total resp
        if (mp2.length : Int) ≥ total then (mp2, reqs + 1)
        else buildJobEquipmentMapGo backend pagesLeft (page + 1) mp2 (reqs + 1)

/-- `QF3Client.build_job_equipment_map` (qf3_api.py lines 159-194). -/
def build_job_equipment_map (backend : Nat → Resp) (maxPages : Nat) :
    EquipMap × Nat :=
  buildJobEquipmentMapGo backend maxPages 1 [] 0

/-- One page response as `QFactoryClient.list_items_all` sees it: the row
list `extract_rows(resp)` and the optional total `extract_total(resp)`
(qfactory_client.py lines 123-173).  Those two path-probing extractors are
pure functions of the JSON envelope and jointly surjective onto
`List Record × Option Int`, so the loop is quantified over their outputs
rather than over raw envelopes. -/
structure QResp where
  rows : List Record
  total : Option Int

/-- The `while page <= max_pages` loop of `QFactoryClient.list_items_all`
(qfactory_client.py lines 192-228): remember the first reported total, then
stop when the accumulator reaches it or the page came back short of
`limit`.  The `progress_cb` side effect is purely observational and
omitted; `reqs` counts the page requests issued. -/
def listItemsAllGo (backend : Nat → QResp) (limit : Nat) :
    Nat → Nat → List Record → Option Int → Nat → List Record × Nat
  | 0, _, allRows, _, reqs => (allRows, reqs)
  | pagesLeft + 1, page, allRows, total, reqs =>
      let resp := backend page
      let total2 := match total with
        | some t => some t
        | none => resp.total
      let rows := resp.rows
      let allRows2 := allRows ++ rows
      let stopTotal := match total2 with
        | some t => decide ((allRows2.length : Int) ≥ t)
        | none => false
      if stopTotal then (allRows2, reqs + 1)
      else if rows.length < limit then (allRows2, reqs + 1)
      else listItemsAllGo backend limit pagesLeft (page + 1) allRows2 total2 (reqs + 1)

/-- `QFactoryClient.list_items_all` (qfactory_client.py lines 175-228),
returning the accumulated rows and the number of page requests issued. -/
def list_items_all (backend : Nat → QResp) (limit maxPages : Nat) :
    List Record × Nat :=
  listItemsAllGo backend limit maxPages 1 [] none 0

/-- Python `x or ""` for the string fields this app renders: `None` (and
any other falsy value) becomes the empty string.  A truthy non-string would
make the Python code raise later (`.lower()` or `join` on a non-string);
such inputs are not modelled and map to `""`. -/
def pyStrOrEmpty : Val → String
  | .str s => s
  | _ => ""

/-- The per-record body of `QF3Client.attach_equipment_to_heads`
(qf3_api.py lines 242-256): copy the head, store the three metadata fields
looked up in the map (`None` for a miss), and derive `equipmentDisplay` by
joining the truthy ones with " / ". -/
def attachOne (jobMp : EquipMap) (h : Record) : Record :=
  let eq : Record :=
    match dget h "jobName" with
    | some jn => if truthy jn then (mget jobMp jn).getD [] else []
    | none => []
  let h2 := dset h "workcenterName" (dgetN eq "workcenterName")
  let h2 := dset h2 "machineName" (dgetN eq "machineName")
  let h2 := dset h2 "resourceName" (dgetN eq "resourceName")
  let wc := pyStrOrEmpty (dgetN h2 "workcenterName")
  let mc := pyStrOrEmpty (dgetN h2 "machineName")
  let rs := pyStrOrEmpty (dgetN h2 "resourceName")
  let disp := String.intercalate " / " ([wc, mc, rs].filter (fun x => x ≠ ""))
  dset h2 "equipmentDisplay" (Val.str disp)

/-- `QF3Client.attach_equipment_to_heads` (qf3_api.py lines 236-257). -/
def attach_equipment_to_heads (heads : List Record) (jobMp : EquipMap) :
    List Record :=
  heads.map (attachOne jobMp)

/-- `app._parse_and_tokens` (app.py lines 44-55): strip the query, split on
"%", strip each piece, drop the empty ones. -/
def parse_and_tokens (q : String) : List String :=
  let q := q.trim
  if q = "" then []
  else ((q.splitOn "%").map String.trim).filter (fun p => p ≠ "")

/-- Python `needle in hay` on strings: a contiguous substring test. -/
def strContains (hay needle : String) : Bool :=
  decide (needle.toList <:+: hay.toList)

/-- `app._filter_heads_by_item_name` (app.py lines 58-77): keep the heads
whose `itemName` (missing treated as `""`) contains every token
case-insensitively; with no tokens, return the input unchanged.  The
Python loop with its `ok` flag and `break` is the conjunction written
here with `List.all`. -/
def filter_heads_by_item_name (heads : List Record) (q : String) :
    List Record :=
  let tokens := parse_and_tokens q
  if tokens.isEmpty then heads
  else
    heads.filter (fun h =>
      let nameL := (pyStrOrEmpty (dgetN h "itemName")).toLower
      tokens.all (fun t => strContains nameL t.toLower))

/-- `app._workcenter_from_head` (app.py lines 34-41): the workcenter name,
else the first "/"-piece of `equipmentDisplay`, else `createdBy`. -/
def workcenter_from_head (h : Record) : String :=
  let wc := (pyStrOrEmpty (dgetN h "workcenterName")).trim
  if wc ≠ "" then wc
  else
    let ed := (pyStrOrEmpty (dgetN h "equipmentDisplay")).trim
    if ed ≠ "" then ((ed.splitOn "/").headD "").trim
    else (pyStrOrEmpty (dgetN h "createdBy")).trim

/-- The fixed 11-column header row of the exported sheet
(app.py lines 92-96). -/
def excelColumns : List Val :=
  [.str "구분", .str "품목코드", .str "품목명", .str "작업장",
   .str "검사항목", .str "측정값", .str "단위", .str "기준",
   .str "상한", .str "하한", .str "판정"]

/-- Python `int(h["mfgInspectionId"])` (app.py line 118).  A head without
the field raises `KeyError` in Python; that case is unreached on the data
this claim set quantifies over and is modelled as `int(None) = 0`. -/
def midOf (h : Record) : Int :=
  toIntPy (dgetN h "mfgInspectionId")

/-- One detail ("검사") row of the sheet (app.py lines 137-150). -/
def detailRow (itemCode itemName : Val) (wc : String) (r : Record) :
    List Val :=
  [.str "검사", itemCode, itemName, .str wc,
   dgetN r "level3ClassName", dgetN r "checkValue", dgetN r "unit",
   dgetN r "standardValue", dgetN r "upperLimit", dgetN r "lowerLimit",
   dgetN r "passDecision"]

/-- The rows one iteration of the `for i, h in enumerate(heads2)` loop
appends (app.py lines 114-158): the group-header ("품목") row, then one
row per fetched detail, or the single "(검사결과 없음)" placeholder row when
the detail fetch returns no rows.  `lineFetch` stands for
`client._extract_list(client.line_list(mid, page=1, limit=500))`; the
commented-out blank separator row of the source is — as in the source —
not emitted. -/
def groupRows (lineFetch : Int → List Record) (h : Record) :
    List (List Val) :=
  let wc := workcenter_from_head h
  let itemCode := dgetN h "itemCode"
  let itemName := dgetN h "itemName"
  let rowsL := lineFetch (midOf h)
  let headRow : List Val :=
    [.str "품목", itemCode, itemName, .str wc, .str "", .str "", .str "",
     .str "", .str "", .str "", .str ""]
  if rowsL.isEmpty then
    [headRow,
     [.str "검사", itemCode, itemName, .str wc, .str "(검사결과 없음)",
      .str "", .str "", .str "", .str "", .str "", .str ""]]
  else headRow :: rowsL.map (detailRow itemCode itemName wc)

/-- The cell rows `app._excel_one_sheet_item_then_results` appends to the
worksheet (app.py lines 80-169): the column header first, then each head's
group.  Styling, column widths, pane freezing and the progress callback do
not touch the row data and are not modelled. -/
def excel_one_sheet_item_then_results (heads2 : List Record)
    (lineFetch : Int → List Record) : List (List Val) :=
  heads2.foldl (fun ws h => ws ++ groupRows lineFetch h) [excelColumns]

/-- The data pipeline of the excel download handler (app.py lines
381-424): rebuild the equipment map, refetch all heads, enrich, apply the
item-name AND filter, and raise `RuntimeError` when nothing is left,
else shape the sheet.  Both fetches run with the defaults
`limit=500, max_pages=999`. -/
def excel_download_handler (jobBackend headBackend : Nat → Resp)
    (lineFetch : Int → List Record) (itemNameQ : String) :
    Except String (List (List Val)) :=
  let jobMp := (build_job_equipment_map jobBackend 999).1
  let heads := (fetch_all_heads headBackend 999).1
  let heads2 := attach_equipment_to_heads heads jobMp
  let heads2 := filter_heads_by_item_name heads2 itemNameQ
  if heads2.isEmpty then
    Except.error "다운로드할 데이터가 없습니다. 조회조건을 확인하세요."
  else Except.ok (excel_one_sheet_item_then_results heads2 lineFetch)

/-! Helper lemmas about the dictionary operations. -/

theorem dget_dset_self (r : Record) (key : String) (v : Val) :
    dget (dset r key v) key = some v := by
  induction r with
  | nil => simp [dget, dset]
  | cons kv rest ih =>
      obtain ⟨k, w⟩ := kv
      by_cases hk : k = key
      · simp [dget, dset, hk]
      · simp [dget, dset, hk, ih]

theorem dget_dset_ne (r : Record) (key other : String) (v : Val)
    (hne : other ≠ key) : dget (dset r key v) other = dget r other := by
  induction r with
  | nil => simp [dget, dset, hne, Ne.symm hne]
  | cons kv rest ih =>
      obtain ⟨k, w⟩ := kv
      by_cases hk : k = key
      · subst hk
        simp [dget, dset, Ne.symm hne]
      · by_cases ho : k = other <;> simp [dget, dset, hk, ho, ih, hne]

theorem mget_mset_self (m : EquipMap) (key : Val) (v : Record) :
    mget (mset m key v) key = some v := by
  induction m with
  | nil => simp [mget, mset]
  | cons kv rest ih =>
      obtain ⟨k, w⟩ := kv
      by_cases hk : k = key
      · simp [mget, mset, hk]
      · simp [mget, mset, hk, ih]

theorem mget_mset_ne (m : EquipMap) (key other : Val) (v : Record)
    (hne : other ≠ key) : mget (mset m key v) other = mget m other := by
  induction m with
  | nil => simp [mget, mset, hne, Ne.symm hne]
  | cons kv rest ih =>
      obtain ⟨k, w⟩ := kv
      by_cases hk : k = key
      · subst hk
        simp [mget, mset, Ne.symm hne]
      · by_cases ho : k = other <;> simp [mget, mset, hk, ho, ih, hne]

/-- The join-key match a record must pass for `build_job_equipment_map` to
store it under `k`: its `jobName` is exactly `k` and `k` is truthy. -/
def hasJobKey (k : Val) (r : Record) : Bool :=
  decide (dget r "jobName" = some k) && truthy k

/-- Lookup after the row loop of `build_job_equipment_map`: the metadata of
the last matching row, else whatever the map held before. -/
theorem insertJobRows_mget (rows : List Record) (mp : EquipMap) (k : Val) :
    mget (insertJobRows mp rows) k =
      (rows.reverse.find? (hasJobKey k)).elim (mget mp k)
        (fun r => some (jobRowInfo r)) := by
  induction rows generalizing mp with
  | nil => simp [insertJobRows]
  | cons r rest ih =>
      have hstep :
          insertJobRows mp (r :: rest) =
            insertJobRows
              (match dget r "jobName" with
               | some jn => if truthy jn then mset mp jn (jobRowInfo r) else mp
               | none => mp) rest := rfl
      rw [hstep, ih, List.reverse_cons, List.find?_append]
      cases hfind : rest.reverse.find? (hasJobKey k) with
      | some rr => simp
      | none =>
          simp only [Option.or, Option.elim]
          cases hjn : dget r "jobName" with
          | none => simp [List.find?, hasJobKey, hjn]
          | some jn =>
              by_cases htr : truthy jn
              · by_cases hk : jn = k
                · subst hk
                  simp [List.find?, hasJobKey, hjn, htr, mget_mset_self]
                · simp [List.find?, hasJobKey, hjn, htr, hk,
                    mget_mset_ne mp jn k (jobRowInfo r) (Ne.symm hk)]
              · by_cases hk : jn = k
                · subst hk
                  simp [List.find?, hasJobKey, hjn, htr]
                · simp [List.find?, hasJobKey, hjn, htr, hk]

/-! Stop behavior of the three fetch loops: once the stop test of an
iteration holds, that iteration's request is the last one issued. -/

theorem fetchAllHeadsGo_stop (b : Nat → Resp) (fuel page : Nat)
    (acc : List Record) (reqs : Nat)
    (hne : extract_list (b page) ≠ [])
    (htot : ((acc ++ extract_list (b page)).length : Int) ≥ extract_total (b page)) :
    fetchAllHeadsGo b (fuel + 1) page acc reqs =
      (acc ++ extract_list (b page), reqs + 1) := by
  simp only [fetchAllHeadsGo]
  rw [if_neg, if_pos htot]
  simp [List.isEmpty_iff, hne]

theorem buildJobEquipmentMapGo_stop (b : Nat → Resp) (fuel page : Nat)
    (mp : EquipMap) (reqs : Nat)
    (hne : extract_list (b page) ≠ [])
    (htot : ((insertJobRows mp (extract_list (b page))).length : Int) ≥
      extract_total (b page)) :
    buildJobEquipmentMapGo b (fuel + 1) page mp reqs =
      (insertJobRows mp (extract_list (b page)), reqs + 1) := by
  simp only [buildJobEquipmentMapGo]
  rw [if_neg, if_pos htot]
  simp [List.isEmpty_iff, hne]

theorem listItemsAllGo_stop (qb : Nat → QResp) (limit fuel page : Nat)
    (acc : List Record) (tot : Option Int) (reqs : Nat) (t : Int)
    (hknown : (match tot with | some x => some x | none => (qb page).total) = some t)
    (htot : ((acc ++ (qb page).rows).length : Int) ≥ t) :
    listItemsAllGo qb limit (fuel + 1) page acc tot reqs =
      (acc ++ (qb page).rows, reqs + 1) := by
  simp only [listItemsAllGo]
  rw [hknown]
  simp only [decide_eq_true_eq]
  rw [if_pos htot]

/-! Every loop issues at most one page request per unit of fuel, hence at
most `max_pages` requests in total. -/

theorem fetchAllHeadsGo_reqs_le (b : Nat → Resp) (fuel : Nat) :
    ∀ (page : Nat) (acc : List Record) (reqs : Nat),
      (fetchAllHeadsGo b fuel page acc reqs).2 ≤ reqs + fuel := by
  induction fuel with
  | zero => intro page acc reqs; simp [fetchAllHeadsGo]
  | succ m ih =>
      intro page acc reqs
      simp only [fetchAllHeadsGo]
      split
      · simp
      · split
        · simp
        · exact le_trans (ih (page + 1) _ (reqs + 1)) (by omega)

theorem buildJobEquipmentMapGo_reqs_le (b : Nat → Resp) (fuel : Nat) :
    ∀ (page : Nat) (mp : EquipMap) (reqs : Nat),
      (buildJobEquipmentMapGo b fuel page mp reqs).2 ≤ reqs + fuel := by
  induction fuel with
  | zero => intro page mp reqs; simp [buildJobEquipmentMapGo]
  | succ m ih =>
      intro page mp reqs
      simp only [buildJobEquipmentMapGo]
      split
      · simp
      · split
        · simp
        · exact le_trans (ih (page + 1) _ (reqs + 1)) (by omega)

theorem listItemsAllGo_reqs_le (qb : Nat → QResp) (limit : Nat) (fuel : Nat) :
    ∀ (page : Nat) (acc : List Record) (tot : Option Int) (reqs : Nat),
      (listItemsAllGo qb limit fuel page acc tot reqs).2 ≤ reqs + fuel := by
  induction fuel with
  | zero => intro page acc tot reqs; simp [listItemsAllGo]
  | succ m ih =>
      intro page acc tot reqs
      simp only [listItemsAllGo]
      split
      · simp
      · split
        · simp
        · exact le_trans (ih (page + 1) _ _ (reqs + 1)) (by omega)

/-! The rows either loop returns are the concatenation, in page order, of
the row lists of an initial run of the pages it was started on. -/

theorem fetchAllHeadsGo_prefix (b : Nat → Resp) (fuel : Nat) :
    ∀ (page : Nat) (acc : List Record) (reqs : Nat),
      ∃ n, n ≤ fuel ∧
        (fetchAllHeadsGo b fuel page acc reqs).1 =
          acc ++ ((List.range' page n).map (fun p => extract_list (b p))).flatten := by
  induction fuel with
  | zero =>
      intro page acc reqs
      exact ⟨0, Nat.le_refl 0, by simp [fetchAllHeadsGo]⟩
  | succ m ih =>
      intro page acc reqs
      simp only [fetchAllHeadsGo]
      by_cases he : (extract_list (b page)).isEmpty
      · refine ⟨0, by omega, ?_⟩
        rw [if_pos he]
        simp
      · rw [if_neg he]
        by_cases ht : ((acc ++ extract_list (b page)).length : Int) ≥ extract_total (b page)
        · refine ⟨1, by omega, ?_⟩
          rw [if_pos ht]
          simp [List.range'_succ]
        · rw [if_neg ht]
          obtain ⟨n, hn, hres⟩ := ih (page + 1) (acc ++ extract_list (b page)) (reqs + 1)
          refine ⟨n + 1, by omega, ?_⟩
          rw [hres, List.range'_succ]
          simp

theorem listItemsAllGo_prefix (qb : Nat → QResp) (limit : Nat) (fuel : Nat) :
    ∀ (page : Nat) (acc : List Record) (tot : Option Int) (reqs : Nat),
      ∃ n, n ≤ fuel ∧
        (listItemsAllGo qb limit fuel page acc tot reqs).1 =
          acc ++ ((List.range' page n).map (fun p => (qb p).rows)).flatten := by
  induction fuel with
  | zero =>
      intro page acc tot reqs
      exact ⟨0, Nat.le_refl 0, by simp [listItemsAllGo]⟩
  | succ m ih =>
      intro page acc tot reqs
      simp only [listItemsAllGo]
      split
      · exact ⟨1, by omega, by simp [List.range'_succ]⟩
      · split
        · exact ⟨1, by omega, by simp [List.range'_succ]⟩
        · obtain ⟨n, hn, hres⟩ := ih (page + 1) (acc ++ (qb page).rows) _ (reqs + 1)
          refine ⟨n + 1, by omega, ?_⟩
          rw [hres, List.range'_succ]
          simp

/-! The enrichment step, field by field. -/

theorem dget_dset (r : Record) (key other : String) (v : Val) :
    dget (dset r key v) other = if other = key then some v else dget r other := by
  by_cases hko : other = key
  · subst hko; simp [dget_dset_self]
  · simp [hko, dget_dset_ne r key other v hko]

/-- The equipment dict the enrichment looks up for a head:
`job_mp.get(jn, \x7b\x7d) if jn else \x7b\x7d` (qf3_api.py line 245). -/
def attachEq (jobMp : EquipMap) (h : Record) : Record :=
  match dget h "jobName" with
  | some jn => if truthy jn then (mget jobMp jn).getD [] else []
  | none => []

/-- The four field keys `attach_equipment_to_heads` writes. -/
def attachedFieldKeys : List String :=
  ["workcenterName", "machineName", "resourceName", "equipmentDisplay"]

/-- A head whose join key leads nowhere: `jobName` absent, falsy, or not a
key of the map. -/
def unmatchedKey (jobMp : EquipMap) (h : Record) : Prop :=
  ∀ jn, dget h "jobName" = some jn → truthy jn = false ∨ mget jobMp jn = none

theorem attachEq_unmatched (jobMp : EquipMap) (h : Record)
    (hu : unmatchedKey jobMp h) : attachEq jobMp h = [] := by
  unfold attachEq
  cases hjn : dget h "jobName" with
  | none => rfl
  | some jn =>
      rcases hu jn hjn with h1 | h2
      · simp [h1]
      · by_cases ht : truthy jn
        · simp [ht, h2]
        · simp [ht]

theorem attachOne_spec (jobMp : EquipMap) (h : Record) :
    dget (attachOne jobMp h) "workcenterName" =
      some (dgetN (attachEq jobMp h) "workcenterName") ∧
    dget (attachOne jobMp h) "machineName" =
      some (dgetN (attachEq jobMp h) "machineName") ∧
    dget (attachOne jobMp h) "resourceName" =
      some (dgetN (attachEq jobMp h) "resourceName") ∧
    dget (attachOne jobMp h) "equipmentDisplay" =
      some (Val.str (String.intercalate " / "
        (([pyStrOrEmpty (dgetN (attachEq jobMp h) "workcenterName"),
           pyStrOrEmpty (dgetN (attachEq jobMp h) "machineName"),
           pyStrOrEmpty (dgetN (attachEq jobMp h) "resourceName")].filter
          (fun x => x ≠ ""))))) ∧
    (∀ key, key ∉ attachedFieldKeys → dget (attachOne jobMp h) key = dget h key) := by
  refine ⟨?_, ?_, ?_, ?_, ?_⟩
  · simp only [attachOne, attachEq, dgetN]
    simp [dget_dset]
  · simp only [attachOne, attachEq, dgetN]
    simp [dget_dset]
  · simp only [attachOne, attachEq, dgetN]
    simp [dget_dset]
  · simp only [attachOne, attachEq, dgetN]
    simp [dget_dset]
  · intro key hk
    simp only [attachedFieldKeys, List.mem_cons, List.not_mem_nil] at hk
    push_neg at hk
    obtain ⟨h1, h2, h3, h4⟩ := hk
    simp [attachOne, dget_dset, h1, h2, h3, h4]

/-- Rows without a truthy `jobName` leave the map untouched. -/
theorem insertJobRows_no_keys (rows : List Record) :
    ∀ (mp : EquipMap),
      (∀ r ∈ rows, ∀ jn, dget r "jobName" = some jn → truthy jn = false) →
      insertJobRows mp rows = mp := by
  induction rows with
  | nil => intro mp _; rfl
  | cons r rest ih =>
      intro mp hall
      have hstep :
          insertJobRows mp (r :: rest) =
            insertJobRows
              (match dget r "jobName" with
               | some jn => if truthy jn then mset mp jn (jobRowInfo r) else mp
               | none => mp) rest := rfl
      rw [hstep]
      have hmp2 :
          (match dget r "jobName" with
           | some jn => if truthy jn then mset mp jn (jobRowInfo r) else mp
           | none => mp) = mp := by
        cases hjn : dget r "jobName" with
        | none => rfl
        | some jn => simp [hall r (by simp) jn hjn]
      rw [hmp2]
      exact ih mp (fun r2 hr2 => hall r2 (by simp [hr2]))

/-! Shape of the exported sheet. -/

theorem foldl_append_flatten {α β : Type} (g : α → List β) :
    ∀ (l : List α) (init : List β),
      l.foldl (fun ws h => ws ++ g h) init = init ++ (l.map g).flatten := by
  intro l
  induction l with
  | nil => intro init; simp
  | cons x t ih => intro init; simp [ih]

theorem excel_rows_eq (heads2 : List Record) (lineFetch : Int → List Record) :
    excel_one_sheet_item_then_results heads2 lineFetch =
      excelColumns :: (heads2.map (groupRows lineFetch)).flatten := by
  simp [excel_one_sheet_item_then_results, foldl_append_flatten]

theorem groupRows_length (lineFetch : Int → List Record) (h : Record) :
    (groupRows lineFetch h).length = 1 + max (lineFetch (midOf h)).length 1 := by
  cases hl : lineFetch (midOf h) with
  | nil => simp [groupRows, hl]
  | cons a t =>
      have hmax : max (t.length + 1) 1 = t.length + 1 := Nat.max_eq_left (by omega)
      simp [groupRows, hl, hmax]
      omega

theorem sum_map_one_add {α : Type} (f : α → Nat) (l : List α) :
    (l.map (fun x => 1 + f x)).sum = l.length + (l.map f).sum := by
  induction l with
  | nil => simp
  | cons x t ih => simp [ih]; omega

/-! Concrete backends used by the counterexamples and witnesses. -/

/-- A head row without a `cnt` field. -/
def cexRowA : Record := [("itemCode", Val.str "A")]

/-- A second head row without a `cnt` field. -/
def cexRowB : Record := [("itemCode", Val.str "B")]

/-- A backend whose page 1 is `[cexRowA]` (no `cnt`), page 2 is
`[cexRowB]`, and every later page is empty. -/
def cexBackendC1 : Nat → Resp := fun p =>
  if p = 1 then ⟨some [cexRowA]⟩
  else if p = 2 then ⟨some [cexRowB]⟩
  else ⟨some []⟩

/-- Two job rows sharing the join key "J", both declaring `cnt = 2`. -/
def cexJobRowA : Record :=
  [("jobName", Val.str "J"), ("cnt", Val.int 2), ("workcenterName", Val.str "W1")]

/-- The later of the two duplicate-key job rows. -/
def cexJobRowB : Record :=
  [("jobName", Val.str "J"), ("cnt", Val.int 2), ("workcenterName", Val.str "W2")]

/-- A backend whose page 1 holds the two duplicate-key rows and whose every
later page is empty. -/
def cexBackendC2 : Nat → Resp := fun p =>
  if p = 1 then ⟨some [cexJobRowA, cexJobRowB]⟩ else ⟨some []⟩

/-- A head whose `jobName` ("J9") is not a key of the empty equipment
map. -/
def cexHead : Record := [("itemName", Val.str "x"), ("jobName", Val.str "J9")]

/-- A head row that declares `cnt = 3`. -/
def witnessRow : Record := [("cnt", Val.int 3)]

/-- A backend every page of which has three rows declaring `cnt = 3`. -/
def witnessBackend : Nat → Resp := fun _ => ⟨some [witnessRow, witnessRow, witnessRow]⟩

/-- An item-listing backend every page of which has three rows and reports
`total = 3`. -/
def witnessQBackend : Nat → QResp := fun _ => ⟨[[], [], []], some 3⟩

/-- C1 (counterexample): `cexBackendC1` eventually returns an empty page
(every page from 3 on), yet `fetch_all_heads` returns only page 1 — not
the concatenation of all non-empty pages, which would also include page 2.
Page 1 carries no `cnt`, so the extracted total defaults to that page's own
row count and the loop stops after one page. -/
theorem fetch_all_not_all_pages_cex :
    (∀ p, 3 ≤ p → extract_list (cexBackendC1 p) = []) ∧
    extract_list (cexBackendC1 2) = [cexRowB] ∧
    (fetch_all_heads cexBackendC1 999).1 = [cexRowA] ∧
    (fetch_all_heads cexBackendC1 999).1 ≠
      extract_list (cexBackendC1 1) ++ extract_list (cexBackendC1 2) := by
  refine ⟨?_, by decide, by decide, by decide⟩
  intro p hp
  have h1 : p ≠ 1 := by omega
  have h2 : p ≠ 2 := by omega
  simp [cexBackendC1, extract_list, h1, h2]

/-- C1 (amended): each full-collection fetch returns exactly the
concatenation, in first-seen page order, of the row lists of an initial
run of pages 1..n with n ≤ max_pages (the pages it requested), and issues
at most max_pages page requests. -/
theorem fetch_all_returns_prefix_concat (b : Nat → Resp) (qb : Nat → QResp)
    (limit maxPages : Nat) :
    (∃ n, n ≤ maxPages ∧
      (fetch_all_heads b maxPages).1 =
        ((List.range' 1 n).map (fun p => extract_list (b p))).flatten) ∧
    (fetch_all_heads b maxPages).2 ≤ maxPages ∧
    (∃ n, n ≤ maxPages ∧
      (list_items_all qb limit maxPages).1 =
        ((List.range' 1 n).map (fun p => (qb p).rows)).flatten) ∧
    (list_items_all qb limit maxPages).2 ≤ maxPages := by
  refine ⟨?_, ?_, ?_, ?_⟩
  · obtain ⟨n, hn, hres⟩ := fetchAllHeadsGo_prefix b maxPages 1 [] 0
    exact ⟨n, hn, by simpa [fetch_all_heads] using hres⟩
  · simpa [fetch_all_heads] using fetchAllHeadsGo_reqs_le b maxPages 1 [] 0
  · obtain ⟨n, hn, hres⟩ := listItemsAllGo_prefix qb limit maxPages 1 [] none 0
    exact ⟨n, hn, by simpa [list_items_all] using hres⟩
  · simpa [list_items_all] using listItemsAllGo_reqs_le qb limit maxPages 1 [] none 0

/-- C2 (counterexample): after page 1 of `cexBackendC2` the accumulated
rows (2) already reach the declared total (2), yet
`build_job_equipment_map` issues a second page request — its stop test
counts map entries (1 here, the two rows share a join key), not rows. -/
theorem build_map_row_total_cex :
    (extract_list (cexBackendC2 1)).length = 2 ∧
    extract_total (cexBackendC2 1) = 2 ∧
    (insertJobRows [] (extract_list (cexBackendC2 1))).length = 1 ∧
    (build_job_equipment_map cexBackendC2 999).2 = 2 ∧
    (build_job_equipment_map cexBackendC2 999).2 ≠ 1 :=
  ⟨by decide, by decide, by decide, by decide, by decide⟩

/-- C2 (amended): once a known total is covered by the loop's accumulator,
the current page request is the last one issued: `fetch_all_heads` and
`list_items_all` stop as soon as the accumulated rows reach the total,
while `build_job_equipment_map` stops as soon as its `jobName`-keyed map
has at least `total` entries (so duplicate or missing join keys can delay
its stop beyond the point where the accumulated rows reach the total). -/
theorem fetch_loops_stop_at_total (b : Nat → Resp) (qb : Nat → QResp)
    (limit fuel page : Nat) (acc : List Record) (mp : EquipMap)
    (tot : Option Int) (t : Int) (reqs : Nat) :
    (extract_list (b page) ≠ [] →
      ((acc ++ extract_list (b page)).length : Int) ≥ extract_total (b page) →
      fetchAllHeadsGo b (fuel + 1) page acc reqs =
        (acc ++ extract_list (b page), reqs + 1)) ∧
    ((match tot with | some x => some x | none => (qb page).total) = some t →
      ((acc ++ (qb page).rows).length : Int) ≥ t →
      listItemsAllGo qb limit (fuel + 1) page acc tot reqs =
        (acc ++ (qb page).rows, reqs + 1)) ∧
    (extract_list (b page) ≠ [] →
      ((insertJobRows mp (extract_list (b page))).length : Int) ≥
        extract_total (b page) →
      buildJobEquipmentMapGo b (fuel + 1) page mp reqs =
        (insertJobRows mp (extract_list (b page)), reqs + 1)) :=
  ⟨fetchAllHeadsGo_stop b fuel page acc reqs,
   fun hknown htot => listItemsAllGo_stop qb limit fuel page acc tot reqs t hknown htot,
   buildJobEquipmentMapGo_stop b fuel page mp reqs⟩

/-- C3 (counterexample): enriching a head whose join key is absent from the
index stores `None` — not an empty string — in the three metadata
fields. -/
theorem attach_null_metadata_cex :
    dget ((attach_equipment_to_heads [cexHead] []).headD []) "workcenterName" =
      some Val.null ∧
    dget ((attach_equipment_to_heads [cexHead] []).headD []) "machineName" =
      some Val.null ∧
    dget ((attach_equipment_to_heads [cexHead] []).headD []) "resourceName" =
      some Val.null ∧
    Val.null ≠ Val.str "" :=
  ⟨by decide, by decide, by decide, by decide⟩

/-- C3 (amended): enrichment outputs every input record exactly once, in
order; the three metadata fields and `equipmentDisplay` are always present
(never missing), every other field is untouched, and when the join key is
absent from the index the metadata fields hold null (Python `None`) while
`equipmentDisplay` is the empty string. -/
theorem attach_fields_present_null_on_miss (heads : List Record)
    (mp : EquipMap) (h : Record) :
    attach_equipment_to_heads heads mp = heads.map (attachOne mp) ∧
    (dget (attachOne mp h) "workcenterName").isSome ∧
    (dget (attachOne mp h) "machineName").isSome ∧
    (dget (attachOne mp h) "resourceName").isSome ∧
    (dget (attachOne mp h) "equipmentDisplay").isSome ∧
    (∀ key, key ∉ attachedFieldKeys → dget (attachOne mp h) key = dget h key) ∧
    (unmatchedKey mp h →
      dget (attachOne mp h) "workcenterName" = some Val.null ∧
      dget (attachOne mp h) "machineName" = some Val.null ∧
      dget (attachOne mp h) "resourceName" = some Val.null ∧
      dget (attachOne mp h) "equipmentDisplay" = some (Val.str "")) := by
  obtain ⟨hwc, hmc, hrs, hdisp, hother⟩ := attachOne_spec mp h
  refine ⟨rfl, by simp [hwc], by simp [hmc], by simp [hrs], by simp [hdisp],
    hother, ?_⟩
  intro hu
  have he : attachEq mp h = [] := attachEq_unmatched mp h hu
  rw [he] at hwc hmc hrs hdisp
  refine ⟨by simpa using hwc, by simpa using hmc, by simpa using hrs, ?_⟩
  rw [hdisp]
  simp [dgetN, dget, pyStrOrEmpty]
  rfl

/-- C4: the AND-token filter's tokenization splits on "%", trims, and
drops empty pieces, with a stripped-empty query yielding no tokens; zero
tokens make the filter the identity; a record passes iff every token is a
case-insensitive substring of its `itemName` (missing read as ""); and
passing records keep their relative order (the result is a sublist of the
input). -/
theorem item_name_filter_semantics (heads : List Record) (q : String)
    (h : Record) :
    (q.trim = "" → parse_and_tokens q = []) ∧
    (q.trim ≠ "" → parse_and_tokens q =
      ((q.trim.splitOn "%").map String.trim).filter (fun p => p ≠ "")) ∧
    (parse_and_tokens q = [] → filter_heads_by_item_name heads q = heads) ∧
    (h ∈ filter_heads_by_item_name heads q ↔
      h ∈ heads ∧ ∀ t ∈ parse_and_tokens q,
        strContains ((pyStrOrEmpty (dgetN h "itemName")).toLower) t.toLower = true) ∧
    (filter_heads_by_item_name heads q).Sublist heads := by
  refine ⟨?_, ?_, ?_, ?_, ?_⟩
  · intro hq; simp [parse_and_tokens, hq]
  · intro hq; simp [parse_and_tokens, hq]
  · intro htok
    simp [filter_heads_by_item_name, htok]
  · by_cases htok : parse_and_tokens q = []
    · simp [filter_heads_by_item_name, htok]
    · have hbe : (parse_and_tokens q).isEmpty = false := by
        rw [List.isEmpty_eq_false]
        exact htok
      simp [filter_heads_by_item_name, hbe, List.mem_filter, List.all_eq_true]
  · by_cases htok : parse_and_tokens q = []
    · simp only [filter_heads_by_item_name, htok, List.isEmpty_nil, if_pos]
      exact List.Sublist.refl heads
    · have hbe : (parse_and_tokens q).isEmpty = false := by
        rw [List.isEmpty_eq_false]
        exact htok
      simp only [filter_heads_by_item_name, hbe, Bool.false_eq_true, if_false]
      exact List.filter_sublist heads

/-- C5: after the index-building loop runs over a row collection (starting
from the empty map), looking up a key yields the metadata of the last row
carrying that truthy `jobName` — last write wins, no merge; a falsy key is
never mapped, and rows without a truthy `jobName` create no entry at
all. -/
theorem build_index_last_write_wins (rows : List Record) (k : Val) :
    mget (insertJobRows [] rows) k =
      (rows.reverse.find? (hasJobKey k)).map jobRowInfo ∧
    (truthy k = false → mget (insertJobRows [] rows) k = none) ∧
    ((∀ r ∈ rows, ∀ jn, dget r "jobName" = some jn → truthy jn = false) →
      insertJobRows [] rows = []) := by
  have hchar : mget (insertJobRows [] rows) k =
      (rows.reverse.find? (hasJobKey k)).map jobRowInfo := by
    have := insertJobRows_mget rows [] k
    simp only [mget] at this
    rw [this]
    cases rows.reverse.find? (hasJobKey k) <;> simp
  refine ⟨hchar, ?_, fun hall => insertJobRows_no_keys rows [] hall⟩
  intro hfalse
  rw [hchar]
  have : rows.reverse.find? (hasJobKey k) = none := by
    rw [List.find?_eq_none]
    intro r _
    simp [hasJobKey, hfalse]
  simp [this]

/-- C6: the shaped sheet is the header row followed by each head's group in
input order; each group is one group-header row plus max(d, 1) further
rows (its d detail rows, or one placeholder when d = 0, with no blank
separator rows), so the whole sheet has 1 + N + sum over heads of
max(d, 1) rows — that is, N + sum(max(d, 1)) data rows after the header. -/
theorem excel_row_structure (heads2 : List Record)
    (lineFetch : Int → List Record) :
    excel_one_sheet_item_then_results heads2 lineFetch =
      excelColumns :: (heads2.map (groupRows lineFetch)).flatten ∧
    (∀ h : Record,
      (groupRows lineFetch h).length = 1 + max (lineFetch (midOf h)).length 1) ∧
    (excel_one_sheet_item_then_results heads2 lineFetch).length =
      1 + heads2.length +
        (heads2.map (fun h => max (lineFetch (midOf h)).length 1)).sum := by
  refine ⟨excel_rows_eq heads2 lineFetch, groupRows_length lineFetch, ?_⟩
  rw [excel_rows_eq]
  simp only [List.length_cons, List.length_flatten, List.map_map]
  have hcomp : (List.length ∘ groupRows lineFetch) =
      fun h => 1 + max (lineFetch (midOf h)).length 1 := by
    funext h
    exact groupRows_length lineFetch h
  rw [hcomp, sum_map_one_add]
  omega

/-- C7: a backend whose first page reports a total of 3 and returns 3 rows
makes both full-collection fetches stop after exactly one page request. -/
theorem total_aware_early_stop (b : Nat → Resp) (qb : Nat → QResp)
    (limit maxPages : Nat)
    (hb1 : (extract_list (b 1)).length = 3)
    (hb2 : extract_total (b 1) = 3)
    (hq1 : ((qb 1).rows).length = 3)
    (hq2 : (qb 1).total = some 3)
    (hmp : 1 ≤ maxPages) :
    (fetch_all_heads b maxPages).2 = 1 ∧
    (list_items_all qb limit maxPages).2 = 1 := by
  obtain ⟨k, rfl⟩ : ∃ k, maxPages = k + 1 := ⟨maxPages - 1, by omega⟩
  constructor
  · have hne : extract_list (b 1) ≠ [] := by
      intro hcon
      rw [hcon] at hb1
      simp at hb1
    have htot : ((([] : List Record) ++ extract_list (b 1)).length : Int) ≥
        extract_total (b 1) := by
      simp [hb1, hb2]
    have hres := fetchAllHeadsGo_stop b k 1 [] 0 hne htot
    simp [fetch_all_heads, hres]
  · have hknown :
        (match (none : Option Int) with
         | some x => some x
         | none => (qb 1).total) = some 3 := by
      simpa using hq2
    have htot : ((([] : List Record) ++ (qb 1).rows).length : Int) ≥ 3 := by
      simp [hq1]
    have hres := listItemsAllGo_stop qb limit k 1 [] none 0 3 hknown htot
    simp [list_items_all, hres]

/-- C7 (witness): a concrete backend whose every page holds three rows
declaring a total of 3; both fetches issue exactly one request. -/
theorem total_aware_early_stop_witness :
    (fetch_all_heads witnessBackend 999).2 = 1 ∧
    (list_items_all witnessQBackend 500 999).2 = 1 :=
  total_aware_early_stop witnessBackend witnessQBackend 500 999
    (by decide) (by decide) (by decide) (by decide) (by decide)

/-- C8: whatever the backend returns — full pages forever, inconsistent or
absent totals — each fetch loop issues at most `max_pages` page requests;
termination is inherent, each loop being a total function of the fuel
`max_pages + 1 - page`. -/
theorem fetch_loops_request_bound (b : Nat → Resp) (qb : Nat → QResp)
    (limit maxPages : Nat) :
    (fetch_all_heads b maxPages).2 ≤ maxPages ∧
    (build_job_equipment_map b maxPages).2 ≤ maxPages ∧
    (list_items_all qb limit maxPages).2 ≤ maxPages := by
  refine ⟨?_, ?_, ?_⟩
  · simpa [fetch_all_heads] using fetchAllHeadsGo_reqs_le b maxPages 1 [] 0
  · simpa [build_job_equipment_map] using
      buildJobEquipmentMapGo_reqs_le b maxPages 1 [] 0
  · simpa [list_items_all] using listItemsAllGo_reqs_le qb limit maxPages 1 [] none 0

/-- C9: the export handler raises (returns the nothing-to-export error)
exactly when the enriched-and-filtered head collection is empty, and
produces sheet rows exactly when it is not. -/
theorem export_empty_validation (jb hb : Nat → Resp)
    (lf : Int → List Record) (q : String) :
    ((∃ msg, excel_download_handler jb hb lf q = Except.error msg) ↔
      filter_heads_by_item_name
        (attach_equipment_to_heads (fetch_all_heads hb 999).1
          (build_job_equipment_map jb 999).1) q = []) ∧
    ((∃ rows, excel_download_handler jb hb lf q = Except.ok rows) ↔
      filter_heads_by_item_name
        (attach_equipment_to_heads (fetch_all_heads hb 999).1
          (build_job_equipment_map jb 999).1) q ≠ []) := by
  by_cases he :
      filter_heads_by_item_name
        (attach_equipment_to_heads (fetch_all_heads hb 999).1
          (build_job_equipment_map jb 999).1) q = []
  · simp [excel_download_handler, he]
  · have hbe :
        (filter_heads_by_item_name
          (attach_equipment_to_heads (fetch_all_heads hb 999).1
            (build_job_equipment_map jb 999).1) q).isEmpty = false := by
      rw [List.isEmpty_eq_false]
      exact he
    simp [excel_download_handler, hbe, he]

/-- C10: `_extract_total` returns 0 on an empty row list; on a non-empty
list it returns the first row's `cnt`, falling back to the page's own row
count when `cnt` is absent, null or zero; consequently a first page whose
rows carry no `cnt` makes `fetch_all_heads` stop after that single page
even when later pages are non-empty. -/
theorem extract_total_fallback_semantics :
    (∀ resp : Resp, extract_list resp = [] → extract_total resp = 0) ∧
    (∀ (resp : Resp) (first : Record) (rest : List Record),
        extract_list resp = first :: rest →
        (dget first "cnt" = none ∨ dget first "cnt" = some Val.null ∨
          dget first "cnt" = some (Val.int 0)) →
        extract_total resp = ((first :: rest).length : Int)) ∧
    (∀ (resp : Resp) (first : Record) (rest : List Record) (n : Int),
        extract_list resp = first :: rest →
        dget first "cnt" = some (Val.int n) → n ≠ 0 →
        extract_total resp = n) ∧
    (∀ (b : Nat → Resp) (maxPages : Nat),
        1 ≤ maxPages → extract_list (b 1) ≠ [] →
        (∀ r ∈ extract_list (b 1), dget r "cnt" = none) →
        fetch_all_heads b maxPages = (extract_list (b 1), 1)) := by
  have hnil : ∀ resp : Resp, extract_list resp = [] → extract_total resp = 0 := by
    intro resp hl
    simp [extract_total, hl]
  have hfallback : ∀ (resp : Resp) (first : Record) (rest : List Record),
      extract_list resp = first :: rest →
      (dget first "cnt" = none ∨ dget first "cnt" = some Val.null ∨
        dget first "cnt" = some (Val.int 0)) →
      extract_total resp = ((first :: rest).length : Int) := by
    intro resp first rest hl hc
    simp only [extract_total, hl]
    rcases hc with hc | hc | hc <;> simp [hc, truthy, toIntPy]
  have hcnt : ∀ (resp : Resp) (first : Record) (rest : List Record) (n : Int),
      extract_list resp = first :: rest →
      dget first "cnt" = some (Val.int n) → n ≠ 0 →
      extract_total resp = n := by
    intro resp first rest n hl hc hn
    simp only [extract_total, hl]
    simp [hc, truthy, toIntPy, hn]
  refine ⟨hnil, hfallback, hcnt, ?_⟩
  intro b maxPages hmp hne hall
  obtain ⟨k, rfl⟩ : ∃ k, maxPages = k + 1 := ⟨maxPages - 1, by omega⟩
  obtain ⟨first, rest, hl⟩ : ∃ first rest, extract_list (b 1) = first :: rest := by
    cases hl : extract_list (b 1) with
    | nil => exact absurd hl hne
    | cons first rest => exact ⟨first, rest, rfl⟩
  have htot : extract_total (b 1) = ((first :: rest).length : Int) :=
    hfallback (b 1) first rest hl (Or.inl (hall first (by simp [hl])))
  have hstop := fetchAllHeadsGo_stop b k 1 [] 0 hne (by simp [htot, hl])
  simpa [fetch_all_heads] using hstop

end QF3
